import Mathlib

set_option maxRecDepth 4000

/-!
Verification development for the mpv JavaScript scripting bridge
(player/javascript.c, player/mujsutf8.h, player/scripting.c).

Modelling conventions:
* A NUL-terminated C byte string is modelled as the `List Nat` of its bytes
  before the terminator (hence the list contains no 0 byte for real inputs).
  Reading the terminator, or reading past it behind a short-circuited `&&`,
  is modelled by `List.getD _ _ 0`, which returns 0 out of range.
* The mujs engine is external to the repository; engine values are modelled
  as the closed tagged-variant surface the bridge uses, as the spec's design
  notes prescribe (undefined, null, boolean, number, string, array, object,
  callable).  Engine objects keep own properties in insertion order with
  unique keys, and `js_setproperty` overwrites an existing key in place.
* C `double` values are modelled exactly: a finite double is carried as the
  rational it denotes, and the int64 -> double conversion performs real
  round-to-nearest-even on the integer value.  The double -> int64
  conversion truncates toward zero and yields INT64_MIN when the truncated
  value is not representable (the behavior of the common x86 conversion).
-/

namespace MpvJs

/-! ## String Transcoder (player/mujsutf8.h) -/

/-- Model of `u8j__is_utf8_smp`: tests whether the 4 bytes at the head of
`s` are the UTF-8 encoding of a supplementary-plane codepoint.  Reads past
the end of the list see the NUL terminator, i.e. 0. -/
def u8j__is_utf8_smp (s : List Nat) : Bool :=
  (s.getD 0 0 &&& 0xf8 == 0xf0) &&
  (s.getD 1 0 &&& 0xc0 == 0x80) && (s.getD 2 0 &&& 0xc0 == 0x80) &&
  (s.getD 3 0 &&& 0xc0 == 0x80) &&
  ((s.getD 0 0 &&& 0x04 == 0) != ((s.getD 0 0 &&& 0x03) ||| (s.getD 1 0 &&& 0x30) == 0))

/-- Model of `u8j__is_cesu8_smp`: tests whether the 6 bytes at the head of
`s` are a CESU-8 surrogate pair. -/
def u8j__is_cesu8_smp (s : List Nat) : Bool :=
  (s.getD 0 0 == 0xed) && (s.getD 1 0 &&& 0xf0 == 0xa0) &&
  (s.getD 2 0 &&& 0xc0 == 0x80) &&
  (s.getD 3 0 == 0xed) && (s.getD 4 0 &&& 0xf0 == 0xb0) &&
  (s.getD 5 0 &&& 0xc0 == 0x80)

/-- The 6 CESU-8 bytes `u8j_write_cesu8` emits for the UTF-8 supplementary
sequence at the head of `s` (the body of its conversion branch). -/
def u8j__emit_cesu8 (s : List Nat) : List Nat :=
  let top5 := (s.getD 0 0 &&& 0x07) <<< 2 ||| (s.getD 1 0 &&& 0x30) >>> 4
  [0xed,
   0xa0 ||| (top5 - 1),
   0x80 ||| (s.getD 1 0 &&& 0x0f) <<< 2 ||| (s.getD 2 0 &&& 0x30) >>> 4,
   0xed,
   0xb0 ||| (s.getD 2 0 &&& 0x0f),
   s.getD 3 0]

/-- The 4 UTF-8 bytes `u8j_write_utf8` emits for the CESU-8 surrogate pair
at the head of `s` (the body of its conversion branch). -/
def u8j__emit_utf8 (s : List Nat) : List Nat :=
  let top5 := (s.getD 1 0 &&& 0x0f) + 1
  [0xf0 ||| top5 >>> 2,
   0x80 ||| (top5 &&& 0x03) <<< 4 ||| (s.getD 2 0 &&& 0x3f) >>> 2,
   0x80 ||| (s.getD 2 0 &&& 0x03) <<< 4 ||| (s.getD 4 0 &&& 0x0f),
   s.getD 5 0]

/-- Model of `u8j_write_utf8`: single rewrite pass from CESU-8 to UTF-8.
The C loop runs until the NUL terminator, which is the end of the list.
With fewer than 6 bytes left `u8j__is_cesu8_smp` cannot fire (it needs six
bytes each distinct from the terminator, see
`u8j__is_cesu8_smp_length`), so those bytes are copied verbatim. -/
def u8j_write_utf8 : List Nat → List Nat
  | b0 :: b1 :: b2 :: b3 :: b4 :: b5 :: r =>
    if u8j__is_cesu8_smp (b0 :: b1 :: b2 :: b3 :: b4 :: b5 :: r) then
      u8j__emit_utf8 (b0 :: b1 :: b2 :: b3 :: b4 :: b5 :: r) ++ u8j_write_utf8 r
    else
      b0 :: u8j_write_utf8 (b1 :: b2 :: b3 :: b4 :: b5 :: r)
  | b :: r => b :: u8j_write_utf8 r
  | [] => []

/-- The running `smp_count` of the `u8j_utf8_len` scan: the number of
positions of `s` at which `u8j__is_cesu8_smp` fires. -/
def cesu8_smp_count : List Nat → Nat
  | [] => 0
  | b :: r => (if u8j__is_cesu8_smp (b :: r) then 1 else 0) + cesu8_smp_count r

/-- Model of `u8j_utf8_len`: 0 if no conversion to UTF-8 is required, else
the expected UTF-8 strlen.  (The C loop leaves `i = strlen` and returns
`smp_count ? i - smp_count * 2 : 0`.) -/
def u8j_utf8_len (cesu8 : List Nat) : Nat :=
  if cesu8_smp_count cesu8 = 0 then 0 else cesu8.length - 2 * cesu8_smp_count cesu8

/-- The running `smp_count` of the `u8j_cesu8_len` scan: the number of
positions of `s` at which `u8j__is_utf8_smp` fires. -/
def utf8_smp_count : List Nat → Nat
  | [] => 0
  | b :: r => (if u8j__is_utf8_smp (b :: r) then 1 else 0) + utf8_smp_count r

/-- Model of `u8j_cesu8_len`: 0 if no conversion to CESU-8 is required,
else the expected CESU-8 strlen (`i + smp_count * 2`). -/
def u8j_cesu8_len (utf8 : List Nat) : Nat :=
  if utf8_smp_count utf8 = 0 then 0 else utf8.length + 2 * utf8_smp_count utf8

/-- Model of `u8j_write_cesu8`: writes exactly `len` bytes.  The first C
loop runs while at least 6 output bytes remain (`dst <= fin - 6`), the
second copies the remaining bytes verbatim.  The source is read without a
termination test, exactly as in C, where `len` must come from
`u8j_[l]cesu8_len`. -/
def u8j_write_cesu8 : List Nat → Nat → List Nat
  | s, n + 6 =>
    if u8j__is_utf8_smp s then
      u8j__emit_cesu8 s ++ u8j_write_cesu8 (s.drop 4) n
    else
      s.getD 0 0 :: u8j_write_cesu8 (s.drop 1) (n + 5)
  | s, n => (List.range n).map (fun j => s.getD j 0)

/-- The count of the length-bounded `u8j_lcesu8_len` scan: positions
`i` with `i + 4 <= n` (the loop `for (; i <= utf8_len - 4; i++)`). -/
def lutf8_smp_count : List Nat → Nat → Nat
  | v, n + 4 => (if u8j__is_utf8_smp v then 1 else 0) + lutf8_smp_count (v.drop 1) (n + 3)
  | _, _ => 0

/-- Model of `u8j_lcesu8_len`: like `u8j_cesu8_len` for a length-bounded
buffer of declared length `n`; returns 0 immediately when `n < 4`. -/
def u8j_lcesu8_len (v : List Nat) (n : Nat) : Nat :=
  if n < 4 then 0
  else if lutf8_smp_count v n = 0 then 0 else n + 2 * lutf8_smp_count v n

/-- Where the string returned by `u8j__as_utf8` / `u8j__as_cesu8` lives:
the original input pointer, the caller's stack buffer, or a fresh
allocation (reported to the caller through `*mem`). -/
inductive U8jStorage where
  | original
  | stackbuf
  | alloced
deriving DecidableEq

/-- The observable outcome of `u8j__as_utf8` / `u8j__as_cesu8`: the bytes
the returned pointer holds, and which storage was used. -/
structure AsResult where
  ret : List Nat
  storage : U8jStorage
deriving DecidableEq

/-- The value stored to `*mem`: NULL unless a fresh allocation was made. -/
def u8j_mem (r : AsResult) : Option (List Nat) :=
  if r.storage = U8jStorage.alloced then some r.ret else none

/-- Model of `u8j__as_utf8`: returns the input itself when no conversion is
required, else converts into the stack buffer when the result fits
(strictly less than `bufsiz`), else into allocated memory. -/
def u8j__as_utf8 (cesu8 : List Nat) (bufsiz : Nat) : AsResult :=
  let n := u8j_utf8_len cesu8
  if n = 0 then ⟨cesu8, U8jStorage.original⟩
  else if n < bufsiz then ⟨u8j_write_utf8 cesu8, U8jStorage.stackbuf⟩
  else ⟨u8j_write_utf8 cesu8, U8jStorage.alloced⟩

/-- Model of `u8j__as_cesu8`: returns the input itself when no conversion
is required, else converts into the stack buffer when the result fits,
else into allocated memory. -/
def u8j__as_cesu8 (utf8 : List Nat) (bufsiz : Nat) : AsResult :=
  let n := u8j_cesu8_len utf8
  if n = 0 then ⟨utf8, U8jStorage.original⟩
  else if n < bufsiz then ⟨u8j_write_cesu8 utf8 n, U8jStorage.stackbuf⟩
  else ⟨u8j_write_cesu8 utf8 n, U8jStorage.alloced⟩

/-- The UTF-8 to CESU-8 conversion as a value transformation: the no-op
path when `u8j_cesu8_len` returns 0, else `u8j_write_cesu8` (this is the
shape shared by `u8j__as_cesu8` and `u_js_pushstring`). -/
def utf8_to_cesu8 (s : List Nat) : List Nat :=
  let n := u8j_cesu8_len s
  if n = 0 then s else u8j_write_cesu8 s n

/-- The CESU-8 to UTF-8 conversion as a value transformation: the no-op
path when `u8j_utf8_len` returns 0, else `u8j_write_utf8`. -/
def cesu8_to_utf8 (c : List Nat) : List Nat :=
  let n := u8j_utf8_len c
  if n = 0 then c else u8j_write_utf8 c

/-- All bytes of the list are actual bytes (below 256). -/
def bytesLt256 : List Nat → Bool
  | [] => true
  | b :: r => decide (b < 256) && bytesLt256 r

/-- No position of the string carries the CESU-8 high-surrogate lead
pattern (0xED followed by a byte in 0xA0..0xAF).  Valid UTF-8 never
contains this pattern, since it encodes a UTF-16 surrogate. -/
def noHighSurrogate : List Nat → Bool
  | [] => true
  | b :: r => !(b == 0xed && (r.getD 0 0 &&& 0xf0 == 0xa0)) && noHighSurrogate r

/-! ### Basic byte-access lemmas -/

lemma getD_drop (s : List Nat) (k i : Nat) : (s.drop k).getD i 0 = s.getD (k + i) 0 := by
  induction s generalizing k with
  | nil => simp [List.getD]
  | cons b r ih =>
    cases k with
    | zero => simp
    | succ k => simp [Nat.succ_add, ih k]

lemma getD_lt_256 {s : List Nat} (h : bytesLt256 s = true) (i : Nat) : s.getD i 0 < 256 := by
  induction s generalizing i with
  | nil => simp [List.getD]
  | cons b r ih =>
    simp only [bytesLt256, Bool.and_eq_true, decide_eq_true_eq] at h
    cases i with
    | zero => simpa using h.1
    | succ i => simpa using ih h.2 i

lemma bytesLt256_tail {b : Nat} {r : List Nat} (h : bytesLt256 (b :: r) = true) :
    bytesLt256 r = true := by
  simp only [bytesLt256, Bool.and_eq_true] at h
  exact h.2

lemma noHighSurrogate_tail {b : Nat} {r : List Nat} (h : noHighSurrogate (b :: r) = true) :
    noHighSurrogate r = true := by
  simp only [noHighSurrogate, Bool.and_eq_true] at h
  exact h.2

/-- A byte cannot be both a UTF-8 continuation byte and a UTF-8 4-byte
lead byte: bit 6 differs. -/
lemma cont_ne_lead {b : Nat} (h1 : b &&& 0xc0 = 0x80) (h2 : b &&& 0xf8 = 0xf0) : False := by
  have t1 := congrArg (fun x => Nat.testBit x 6) h1
  have t2 := congrArg (fun x => Nat.testBit x 6) h2
  simp only [Nat.testBit_and,
    show Nat.testBit 0xc0 6 = true from by decide,
    show Nat.testBit 0xf8 6 = true from by decide,
    show Nat.testBit 0x80 6 = false from by decide,
    show Nat.testBit 0xf0 6 = true from by decide,
    Bool.and_true, Bool.and_false] at t1 t2
  rw [t1] at t2
  exact Bool.false_ne_true t2

/-- `u8j__is_utf8_smp` unfolded over an explicit 4-byte head. -/
lemma isU_cons_iff (b0 b1 b2 b3 : Nat) (t : List Nat) :
    u8j__is_utf8_smp (b0 :: b1 :: b2 :: b3 :: t) = true ↔
      (b0 &&& 0xf8 = 0xf0 ∧ b1 &&& 0xc0 = 0x80 ∧ b2 &&& 0xc0 = 0x80 ∧ b3 &&& 0xc0 = 0x80 ∧
        ((b0 &&& 0x04 == 0) != ((b0 &&& 0x03) ||| (b1 &&& 0x30) == 0)) = true) := by
  simp [u8j__is_utf8_smp, Bool.and_eq_true, beq_iff_eq, and_assoc]

/-- `u8j__is_cesu8_smp` unfolded over an explicit 6-byte head. -/
lemma isC_cons_iff (b0 b1 b2 b3 b4 b5 : Nat) (t : List Nat) :
    u8j__is_cesu8_smp (b0 :: b1 :: b2 :: b3 :: b4 :: b5 :: t) = true ↔
      (b0 = 0xed ∧ b1 &&& 0xf0 = 0xa0 ∧ b2 &&& 0xc0 = 0x80 ∧
        b3 = 0xed ∧ b4 &&& 0xf0 = 0xb0 ∧ b5 &&& 0xc0 = 0x80) := by
  simp [u8j__is_cesu8_smp, Bool.and_eq_true, beq_iff_eq, and_assoc]

/-- A UTF-8 supplementary-sequence match needs 4 real bytes: the test
reads positions 0..3 and a read of the terminator fails it. -/
lemma u8j__is_utf8_smp_length {s : List Nat} (h : u8j__is_utf8_smp s = true) :
    4 ≤ s.length := by
  rcases s with _ | ⟨b0, _ | ⟨b1, _ | ⟨b2, _ | ⟨b3, t⟩⟩⟩⟩ <;>
    simp_all [u8j__is_utf8_smp, List.getD]

/-- A CESU-8 surrogate-pair match needs 6 real bytes. -/
lemma u8j__is_cesu8_smp_length {s : List Nat} (h : u8j__is_cesu8_smp s = true) :
    6 ≤ s.length := by
  rcases s with _ | ⟨b0, _ | ⟨b1, _ | ⟨b2, _ | ⟨b3, _ | ⟨b4, _ | ⟨b5, t⟩⟩⟩⟩⟩⟩ <;>
    simp_all [u8j__is_cesu8_smp, List.getD]

/-! ### Matches cannot overlap

The length scans test every byte position, while the rewrite passes skip
whole matched sequences; the two agree because a new match can never begin
inside a matched sequence. -/

lemma isU_comp {s : List Nat} (h : u8j__is_utf8_smp s = true) :
    s.getD 0 0 &&& 0xf8 = 0xf0 ∧ s.getD 1 0 &&& 0xc0 = 0x80 ∧
    s.getD 2 0 &&& 0xc0 = 0x80 ∧ s.getD 3 0 &&& 0xc0 = 0x80 ∧
    ((s.getD 0 0 &&& 0x04 == 0) != ((s.getD 0 0 &&& 0x03) ||| (s.getD 1 0 &&& 0x30) == 0))
      = true := by
  simp only [u8j__is_utf8_smp, Bool.and_eq_true, beq_iff_eq] at h
  exact ⟨h.1.1.1.1, h.1.1.1.2, h.1.1.2, h.1.2, h.2⟩

lemma isC_comp {s : List Nat} (h : u8j__is_cesu8_smp s = true) :
    s.getD 0 0 = 0xed ∧ s.getD 1 0 &&& 0xf0 = 0xa0 ∧ s.getD 2 0 &&& 0xc0 = 0x80 ∧
    s.getD 3 0 = 0xed ∧ s.getD 4 0 &&& 0xf0 = 0xb0 ∧ s.getD 5 0 &&& 0xc0 = 0x80 := by
  simp only [u8j__is_cesu8_smp, Bool.and_eq_true, beq_iff_eq] at h
  exact ⟨h.1.1.1.1.1, h.1.1.1.1.2, h.1.1.1.2, h.1.1.2, h.1.2, h.2⟩

/-- No UTF-8 supplementary sequence starts 1, 2 or 3 bytes into another. -/
lemma isU_not_shift {s : List Nat} (h : u8j__is_utf8_smp s = true)
    (k : Nat) (hk1 : 1 ≤ k) (hk3 : k ≤ 3) : u8j__is_utf8_smp (s.drop k) = false := by
  by_contra hc
  rw [Bool.not_eq_false] at hc
  have hlead : s.getD k 0 &&& 0xf8 = 0xf0 := by
    have := (isU_comp hc).1
    rwa [getD_drop, Nat.add_zero] at this
  have hcomp := isU_comp h
  interval_cases k
  · exact cont_ne_lead hcomp.2.1 hlead
  · exact cont_ne_lead hcomp.2.2.1 hlead
  · exact cont_ne_lead hcomp.2.2.2.1 hlead

/-- No CESU-8 surrogate pair starts 1..5 bytes into another. -/
lemma isC_not_shift {s : List Nat} (h : u8j__is_cesu8_smp s = true)
    (k : Nat) (hk1 : 1 ≤ k) (hk5 : k ≤ 5) : u8j__is_cesu8_smp (s.drop k) = false := by
  by_contra hc
  rw [Bool.not_eq_false] at hc
  have hc' := isC_comp hc
  simp only [getD_drop] at hc'
  have h' := isC_comp h
  interval_cases k
  · rw [show (1 : Nat) + 0 = 1 from rfl] at hc'
    rw [hc'.1] at h'
    exact absurd h'.2.1 (by decide)
  · rw [show (2 : Nat) + 0 = 2 from rfl] at hc'
    rw [hc'.1] at h'
    exact absurd h'.2.2.1 (by decide)
  · rw [show (3 : Nat) + 1 = 4 from rfl] at hc'
    rw [h'.2.2.2.2.1] at hc'
    exact absurd hc'.2.1 (by decide)
  · rw [show (4 : Nat) + 0 = 4 from rfl] at hc'
    rw [hc'.1] at h'
    exact absurd h'.2.2.2.2.1 (by decide)
  · rw [show (5 : Nat) + 0 = 5 from rfl] at hc'
    rw [hc'.1] at h'
    exact absurd h'.2.2.2.2.2 (by decide)

/-- At a UTF-8 supplementary match, the positional scan counts exactly one
match over the 4 consumed bytes. -/
lemma utf8_smp_count_match {s : List Nat} (h : u8j__is_utf8_smp s = true) :
    utf8_smp_count s = 1 + utf8_smp_count (s.drop 4) := by
  have hlen := u8j__is_utf8_smp_length h
  rcases s with _ | ⟨b0, _ | ⟨b1, _ | ⟨b2, _ | ⟨b3, t⟩⟩⟩⟩ <;> simp at hlen
  have h1 := isU_not_shift h 1 (by omega) (by omega)
  have h2 := isU_not_shift h 2 (by omega) (by omega)
  have h3 := isU_not_shift h 3 (by omega) (by omega)
  simp only [List.drop_succ_cons, List.drop_zero] at h1 h2 h3 ⊢
  simp [utf8_smp_count, h, h1, h2, h3]

/-- At a CESU-8 surrogate-pair match, the positional scan counts exactly
one match over the 6 consumed bytes. -/
lemma cesu8_smp_count_match {s : List Nat} (h : u8j__is_cesu8_smp s = true) :
    cesu8_smp_count s = 1 + cesu8_smp_count (s.drop 6) := by
  have hlen := u8j__is_cesu8_smp_length h
  rcases s with _ | ⟨b0, _ | ⟨b1, _ | ⟨b2, _ | ⟨b3, _ | ⟨b4, _ | ⟨b5, t⟩⟩⟩⟩⟩⟩ <;> simp at hlen
  have h1 := isC_not_shift h 1 (by omega) (by omega)
  have h2 := isC_not_shift h 2 (by omega) (by omega)
  have h3 := isC_not_shift h 3 (by omega) (by omega)
  have h4 := isC_not_shift h 4 (by omega) (by omega)
  have h5 := isC_not_shift h 5 (by omega) (by omega)
  simp only [List.drop_succ_cons, List.drop_zero] at h1 h2 h3 h4 h5 ⊢
  simp [cesu8_smp_count, h, h1, h2, h3, h4, h5]

/-- CESU-8 surrogate-pair matches are at least 6 bytes apart, so the count
never exceeds a sixth of the length. -/
lemma cesu8_smp_count_le : ∀ (n : Nat) (s : List Nat), s.length ≤ n →
    6 * cesu8_smp_count s ≤ s.length := by
  intro n
  induction n with
  | zero =>
    intro s hs
    have : s = [] := List.length_eq_zero.mp (Nat.le_zero.mp hs)
    simp [this, cesu8_smp_count]
  | succ n ih =>
    intro s hs
    cases s with
    | nil => simp [cesu8_smp_count]
    | cons b r =>
      by_cases hC : u8j__is_cesu8_smp (b :: r)
      · have hm := cesu8_smp_count_match hC
        have hlen := u8j__is_cesu8_smp_length hC
        have hrec := ih ((b :: r).drop 6) (by simp at hs ⊢; omega)
        rw [hm]
        simp only [List.length_drop, List.length_cons] at hrec hs hlen ⊢
        omega
      · have hm : cesu8_smp_count (b :: r) = cesu8_smp_count r := by
          simp [cesu8_smp_count, hC]
        have hrec := ih r (by simp at hs; omega)
        rw [hm]
        simp
        omega

/-- A positive UTF-8 supplementary count needs at least 4 bytes. -/
lemma utf8_smp_count_pos_len {s : List Nat} (h : utf8_smp_count s ≠ 0) :
    4 ≤ s.length := by
  induction s with
  | nil => simp [utf8_smp_count] at h
  | cons b r ih =>
    by_cases hU : u8j__is_utf8_smp (b :: r)
    · exact u8j__is_utf8_smp_length hU
    · have : utf8_smp_count (b :: r) = utf8_smp_count r := by simp [utf8_smp_count, hU]
      rw [this] at h
      have := ih h
      simp
      omega

/-! ### The length-driven rewrite loop follows the source structure -/

/-- The rewrite pass of `u8j_write_cesu8`, expressed as direct recursion on
the source bytes (the destination cursor of the C loop is implicit). -/
def cesu8_of_utf8 : List Nat → List Nat
  | b0 :: b1 :: b2 :: b3 :: r =>
    if u8j__is_utf8_smp (b0 :: b1 :: b2 :: b3 :: r) then
      u8j__emit_cesu8 (b0 :: b1 :: b2 :: b3 :: r) ++ cesu8_of_utf8 r
    else
      b0 :: cesu8_of_utf8 (b1 :: b2 :: b3 :: r)
  | b :: r => b :: cesu8_of_utf8 r
  | [] => []

lemma cesu8_of_utf8_cons_neg {b : Nat} {r : List Nat}
    (h : u8j__is_utf8_smp (b :: r) = false) :
    cesu8_of_utf8 (b :: r) = b :: cesu8_of_utf8 r := by
  rcases r with _ | ⟨b1, _ | ⟨b2, _ | ⟨b3, t⟩⟩⟩ <;> simp [cesu8_of_utf8, h]

lemma u8j_write_utf8_cons_neg {b : Nat} {r : List Nat}
    (h : u8j__is_cesu8_smp (b :: r) = false) :
    u8j_write_utf8 (b :: r) = b :: u8j_write_utf8 r := by
  rcases r with _ | ⟨b1, _ | ⟨b2, _ | ⟨b3, _ | ⟨b4, _ | ⟨b5, t⟩⟩⟩⟩⟩ <;>
    simp [u8j_write_utf8, h]

lemma cesu8_of_utf8_id : ∀ {s : List Nat}, utf8_smp_count s = 0 → cesu8_of_utf8 s = s := by
  intro s
  induction s with
  | nil => intro _; rfl
  | cons b r ih =>
    intro h
    simp only [utf8_smp_count, Nat.add_eq_zero] at h
    have hU : u8j__is_utf8_smp (b :: r) = false := by
      rcases hU : u8j__is_utf8_smp (b :: r) <;> simp [hU] at h ⊢
    rw [cesu8_of_utf8_cons_neg hU, ih h.2]

lemma u8j_write_utf8_id : ∀ {s : List Nat}, cesu8_smp_count s = 0 → u8j_write_utf8 s = s := by
  intro s
  induction s with
  | nil => intro _; rfl
  | cons b r ih =>
    intro h
    simp only [cesu8_smp_count, Nat.add_eq_zero] at h
    have hC : u8j__is_cesu8_smp (b :: r) = false := by
      rcases hC : u8j__is_cesu8_smp (b :: r) <;> simp [hC] at h ⊢
    rw [u8j_write_utf8_cons_neg hC, ih h.2]

lemma range_map_getD (s : List Nat) : (List.range s.length).map (fun j => s.getD j 0) = s := by
  apply List.ext_getElem (by simp)
  intro i h1 h2
  simp only [List.getElem_map, List.getElem_range]
  exact List.getD_eq_getElem _ _ h2

lemma u8j_write_cesu8_six (s : List Nat) (n : Nat) :
    u8j_write_cesu8 s (n + 6) =
      if u8j__is_utf8_smp s then u8j__emit_cesu8 s ++ u8j_write_cesu8 (s.drop 4) n
      else s.getD 0 0 :: u8j_write_cesu8 (s.drop 1) (n + 5) := rfl

lemma u8j_write_cesu8_small (s : List Nat) (n : Nat) (h : n < 6) :
    u8j_write_cesu8 s n = (List.range n).map (fun j => s.getD j 0) := by
  interval_cases n <;> rfl

/-- When invoked with the exact destination length the scan computed, the
destination-cursor loop of `u8j_write_cesu8` performs precisely the
source-directed rewrite. -/
lemma u8j_write_cesu8_eq : ∀ (n : Nat) (s : List Nat), s.length ≤ n →
    u8j_write_cesu8 s (s.length + 2 * utf8_smp_count s) = cesu8_of_utf8 s := by
  intro n
  induction n with
  | zero =>
    intro s hs
    have : s = [] := List.length_eq_zero.mp (Nat.le_zero.mp hs)
    subst this
    rfl
  | succ n ih =>
    intro s hs
    cases s with
    | nil => rfl
    | cons b r =>
      by_cases hU : u8j__is_utf8_smp (b :: r)
      · have hlen := u8j__is_utf8_smp_length hU
        rcases r with _ | ⟨b1, _ | ⟨b2, _ | ⟨b3, t⟩⟩⟩ <;> simp at hlen
        have hcnt := utf8_smp_count_match hU
        simp only [List.drop_succ_cons, List.drop_zero] at hcnt
        have harg : (b :: b1 :: b2 :: b3 :: t).length +
            2 * utf8_smp_count (b :: b1 :: b2 :: b3 :: t) =
            (t.length + 2 * utf8_smp_count t) + 6 := by
          rw [hcnt]; simp; omega
        rw [harg, u8j_write_cesu8_six, if_pos hU]
        have hrec := ih t (by simp at hs; omega)
        simp only [List.drop_succ_cons, List.drop_zero]
        rw [hrec]
        simp [cesu8_of_utf8, hU]
      · have hU' : u8j__is_utf8_smp (b :: r) = false := by simpa using hU
        have hcnt : utf8_smp_count (b :: r) = utf8_smp_count r := by
          simp [utf8_smp_count, hU']
        by_cases hbig : 6 ≤ (b :: r).length + 2 * utf8_smp_count (b :: r)
        · obtain ⟨m, hm⟩ := Nat.exists_eq_add_of_le hbig
          rw [hm, Nat.add_comm 6 m, u8j_write_cesu8_six, if_neg (by simp [hU'])]
          have hm5 : m + 5 = r.length + 2 * utf8_smp_count r := by
            simp at hm
            rw [hcnt] at hm
            omega
          simp only [List.drop_succ_cons, List.drop_zero, List.getD_cons_zero]
          rw [hm5, ih r (by simp at hs; omega)]
          rw [cesu8_of_utf8_cons_neg hU']
        · have hcnt0 : utf8_smp_count r = 0 := by
            by_contra hne
            have := utf8_smp_count_pos_len hne
            simp [hcnt] at hbig
            omega
          have hall : utf8_smp_count (b :: r) = 0 := by rw [hcnt, hcnt0]
          rw [hall, Nat.mul_zero, Nat.add_zero,
            u8j_write_cesu8_small _ _ (by simp at hbig ⊢; omega),
            range_map_getD, cesu8_of_utf8_id hall]

/-! ### Bit-level facts about emitted sequences

A byte satisfying a lead/continuation mask equation is its mask pattern
or-ed with its low bits; with that decomposition every fact below is a
finite check over the free low bits. -/

lemma byte_split_f0 : ∀ b < 256, b &&& 0xf8 = 0xf0 → b = 0xf0 ||| (b &&& 0x07) := by decide

lemma byte_split_80 : ∀ b < 256, b &&& 0xc0 = 0x80 → b = 0x80 ||| (b &&& 0x3f) := by decide

lemma bits_emit1_mask : ∀ x0 < 8, ∀ x1 < 64,
    (((0xf0 ||| x0) &&& 0x04 == 0) != ((((0xf0 ||| x0) &&& 0x03) ||| ((0x80 ||| x1) &&& 0x30)) == 0)) = true →
    (0xa0 ||| ((((0xf0 ||| x0) &&& 0x07) <<< 2 ||| ((0x80 ||| x1) &&& 0x30) >>> 4) - 1)) &&& 0xf0 = 0xa0 := by
  decide

lemma bits_emit2_mask : ∀ x1 < 64, ∀ x2 < 64,
    (0x80 ||| ((0x80 ||| x1) &&& 0x0f) <<< 2 ||| ((0x80 ||| x2) &&& 0x30) >>> 4) &&& 0xc0 = 0x80 := by
  decide

lemma bits_emit4_mask : ∀ x2 < 64, (0xb0 ||| ((0x80 ||| x2) &&& 0x0f)) &&& 0xf0 = 0xb0 := by
  decide

lemma bits_out0 : ∀ x0 < 8, ∀ x1 < 64,
    (((0xf0 ||| x0) &&& 0x04 == 0) != ((((0xf0 ||| x0) &&& 0x03) ||| ((0x80 ||| x1) &&& 0x30)) == 0)) = true →
    0xf0 ||| (((0xa0 ||| ((((0xf0 ||| x0) &&& 0x07) <<< 2 ||| ((0x80 ||| x1) &&& 0x30) >>> 4) - 1)) &&& 0x0f) + 1) >>> 2
      = 0xf0 ||| x0 := by
  decide

lemma bits_out1a : ∀ x0 < 8, ∀ x1 < 64,
    (((0xf0 ||| x0) &&& 0x04 == 0) != ((((0xf0 ||| x0) &&& 0x03) ||| ((0x80 ||| x1) &&& 0x30)) == 0)) = true →
    (((0xa0 ||| ((((0xf0 ||| x0) &&& 0x07) <<< 2 ||| ((0x80 ||| x1) &&& 0x30) >>> 4) - 1)) &&& 0x0f) + 1) &&& 0x03
      = (x1 &&& 0x30) >>> 4 := by
  decide

lemma bits_out1b : ∀ x1 < 64, ∀ x2 < 64,
    ((0x80 ||| ((0x80 ||| x1) &&& 0x0f) <<< 2 ||| ((0x80 ||| x2) &&& 0x30) >>> 4) &&& 0x3f) >>> 2
      = (0x80 ||| x1) &&& 0x0f := by
  decide

lemma bits_out1c : ∀ x1 < 64,
    0x80 ||| ((x1 &&& 0x30) >>> 4) <<< 4 ||| ((0x80 ||| x1) &&& 0x0f) = 0x80 ||| x1 := by
  decide

lemma bits_out2a : ∀ x1 < 64, ∀ x2 < 64,
    (0x80 ||| ((0x80 ||| x1) &&& 0x0f) <<< 2 ||| ((0x80 ||| x2) &&& 0x30) >>> 4) &&& 0x03
      = (x2 &&& 0x30) >>> 4 := by
  decide

lemma bits_out2c : ∀ x2 < 64,
    0x80 ||| ((x2 &&& 0x30) >>> 4) <<< 4 ||| ((0xb0 ||| ((0x80 ||| x2) &&& 0x0f)) &&& 0x0f) = 0x80 ||| x2 := by
  decide

/-- `u8j_write_utf8` recognizes a sequence emitted by `u8j_write_cesu8`
and decodes it back to the 4 source bytes. -/
lemma u8j_write_utf8_emit (x0 x1 x2 b3 : Nat) (hx0 : x0 < 8) (hx1 : x1 < 64) (hx2 : x2 < 64)
    (h3 : b3 &&& 0xc0 = 0x80)
    (hc : (((0xf0 ||| x0) &&& 0x04 == 0) != ((((0xf0 ||| x0) &&& 0x03) ||| ((0x80 ||| x1) &&& 0x30)) == 0)) = true)
    (Y X : List Nat) :
    u8j_write_utf8 (u8j__emit_cesu8 ((0xf0 ||| x0) :: (0x80 ||| x1) :: (0x80 ||| x2) :: b3 :: Y) ++ X) =
      (0xf0 ||| x0) :: (0x80 ||| x1) :: (0x80 ||| x2) :: b3 :: u8j_write_utf8 X := by
  have hA := bits_emit1_mask x0 hx0 x1 hx1 hc
  have hB := bits_emit2_mask x1 hx1 x2 hx2
  have hC := bits_emit4_mask x2 hx2
  have hD := bits_out0 x0 hx0 x1 hx1 hc
  have hE1 := bits_out1a x0 hx0 x1 hx1 hc
  have hE2 := bits_out1b x1 hx1 x2 hx2
  have hE3 := bits_out1c x1 hx1
  have hF1 := bits_out2a x1 hx1 x2 hx2
  have hF3 := bits_out2c x2 hx2
  simp only [u8j__emit_cesu8, List.getD_cons_zero, List.getD_cons_succ, List.cons_append,
    List.nil_append]
  simp only [u8j_write_utf8]
  rw [if_pos (show u8j__is_cesu8_smp _ = true by
    simp [u8j__is_cesu8_smp, hA, hB, hC, h3])]
  simp only [u8j__emit_utf8, List.getD_cons_zero, List.getD_cons_succ, List.cons_append,
    List.nil_append]
  rw [hD, hE1, hE2, hE3, hF1, hF3]

/-- The first byte `cesu8_of_utf8` outputs is either the first input byte
(copied) or the surrogate lead byte 0xED (emitted). -/
lemma cesu8_of_utf8_head (r : List Nat) :
    (cesu8_of_utf8 r).getD 0 0 = r.getD 0 0 ∨ (cesu8_of_utf8 r).getD 0 0 = 0xed := by
  cases r with
  | nil => left; rfl
  | cons b t =>
    by_cases hU : u8j__is_utf8_smp (b :: t)
    · have hlen := u8j__is_utf8_smp_length hU
      rcases t with _ | ⟨b1, _ | ⟨b2, _ | ⟨b3, t⟩⟩⟩ <;> simp at hlen
      right
      simp only [cesu8_of_utf8, if_pos hU, u8j__emit_cesu8, List.cons_append]
      rfl
    · rw [cesu8_of_utf8_cons_neg (by simpa using hU)]
      left; rfl

/-- Decoding the output of the encoding rewrite recovers the input, for
byte strings free of the (invalid-UTF-8) CESU-8 high-surrogate pattern. -/
lemma write_utf8_cesu8_of_utf8 : ∀ (n : Nat) (s : List Nat), s.length ≤ n →
    bytesLt256 s = true → noHighSurrogate s = true →
    u8j_write_utf8 (cesu8_of_utf8 s) = s := by
  intro n
  induction n with
  | zero =>
    intro s hs _ _
    have : s = [] := List.length_eq_zero.mp (Nat.le_zero.mp hs)
    subst this
    rfl
  | succ n ih =>
    intro s hs hb hh
    cases s with
    | nil => rfl
    | cons b r =>
      by_cases hU : u8j__is_utf8_smp (b :: r)
      · have hlen := u8j__is_utf8_smp_length hU
        rcases r with _ | ⟨b1, _ | ⟨b2, _ | ⟨b3, t⟩⟩⟩ <;> simp at hlen
        obtain ⟨h0, h1, h2, h3, hc⟩ := (isU_cons_iff b b1 b2 b3 t).mp hU
        simp only [bytesLt256, Bool.and_eq_true, decide_eq_true_eq] at hb
        obtain ⟨hb0, hb1, hb2, hb3, hbt⟩ := hb
        have hht : noHighSurrogate t = true :=
          noHighSurrogate_tail (noHighSurrogate_tail (noHighSurrogate_tail
            (noHighSurrogate_tail hh)))
        obtain ⟨x0, hx0, rfl⟩ : ∃ x0, x0 < 8 ∧ b = 0xf0 ||| x0 :=
          ⟨b &&& 0x07, by have := @Nat.and_le_right b 0x07; omega,
            byte_split_f0 b hb0 h0⟩
        obtain ⟨x1, hx1, rfl⟩ : ∃ x1, x1 < 64 ∧ b1 = 0x80 ||| x1 :=
          ⟨b1 &&& 0x3f, by have := @Nat.and_le_right b1 0x3f; omega,
            byte_split_80 b1 hb1 h1⟩
        obtain ⟨x2, hx2, rfl⟩ : ∃ x2, x2 < 64 ∧ b2 = 0x80 ||| x2 :=
          ⟨b2 &&& 0x3f, by have := @Nat.and_le_right b2 0x3f; omega,
            byte_split_80 b2 hb2 h2⟩
        show u8j_write_utf8 (cesu8_of_utf8 _) = _
        simp only [cesu8_of_utf8, if_pos hU]
        rw [u8j_write_utf8_emit x0 x1 x2 b3 hx0 hx1 hx2 h3 hc _ (cesu8_of_utf8 t)]
        rw [ih t (by simp at hs; omega) (by
          simp [bytesLt256, hbt]) hht]
      · have hU' : u8j__is_utf8_smp (b :: r) = false := by simpa using hU
        rw [cesu8_of_utf8_cons_neg hU']
        simp only [noHighSurrogate, Bool.and_eq_true, Bool.not_eq_true',
          Bool.and_eq_false_iff] at hh
        have hhr : noHighSurrogate r = true := hh.2
        have hisC : u8j__is_cesu8_smp (b :: cesu8_of_utf8 r) = false := by
          rw [Bool.eq_false_iff]
          intro htrue
          have hcomp := isC_comp htrue
          simp only [List.getD_cons_zero, List.getD_cons_succ] at hcomp
          have hcomp1 := hcomp.1
          have hcomp2 := hcomp.2.1
          rcases cesu8_of_utf8_head r with hhd | hhd
          · rw [hhd] at hcomp2
            rcases hh.1 with hb' | hr'
            · simp only [beq_eq_false_iff_ne, ne_eq] at hb'
              exact hb' hcomp1
            · simp only [beq_eq_false_iff_ne, ne_eq] at hr'
              exact hr' hcomp2
          · rw [hhd] at hcomp2
            exact absurd hcomp2 (by decide)
        rw [u8j_write_utf8_cons_neg hisC]
        rw [ih r (by simp at hs; omega) (bytesLt256_tail hb) hhr]

/-- A high-surrogate-free string contains no CESU-8 surrogate pair at any
position, so the CESU-8 to UTF-8 direction treats it as already UTF-8. -/
lemma noHighSurrogate_count0 {s : List Nat} (h : noHighSurrogate s = true) :
    cesu8_smp_count s = 0 := by
  induction s with
  | nil => rfl
  | cons b r ih =>
    simp only [noHighSurrogate, Bool.and_eq_true, Bool.not_eq_true',
      Bool.and_eq_false_iff] at h
    have hC : u8j__is_cesu8_smp (b :: r) = false := by
      rw [Bool.eq_false_iff]
      intro htrue
      have hcomp := isC_comp htrue
      simp only [List.getD_cons_zero, List.getD_cons_succ] at hcomp
      rcases h.1 with hb | hr
      · simp only [beq_eq_false_iff_ne, ne_eq] at hb
        exact hb hcomp.1
      · simp only [beq_eq_false_iff_ne, ne_eq] at hr
        exact hr hcomp.2.1
    simp [cesu8_smp_count, hC, ih h.2]

/-- If the CESU-8 to UTF-8 length scan reports no conversion, the string
really contains no surrogate pair (the subtraction cannot reach 0). -/
lemma utf8_len_zero_count {c : List Nat} (h : u8j_utf8_len c = 0) :
    cesu8_smp_count c = 0 := by
  by_contra hne
  have h6 := cesu8_smp_count_le c.length c le_rfl
  rw [u8j_utf8_len, if_neg hne] at h
  omega

/-- C3: for every UTF-8 string (bytes below 256, free of the invalid
CESU-8 surrogate pattern, which no valid UTF-8 string contains), encoding
to CESU-8 (`u8j_cesu8_len` + `u8j_write_cesu8`, or the no-op path when the
length scan returns 0) followed by decoding back to UTF-8 (`u8j_utf8_len`
+ `u8j_write_utf8`, or the no-op path) yields the input byte for byte; and
each direction's no-op path returns the identical byte sequence. -/
theorem claim_C3_transcode_roundtrip (s : List Nat)
    (hbytes : bytesLt256 s = true) (hsurr : noHighSurrogate s = true) :
    cesu8_to_utf8 (utf8_to_cesu8 s) = s ∧
    (u8j_cesu8_len s = 0 → utf8_to_cesu8 s = s) ∧
    (u8j_utf8_len s = 0 → cesu8_to_utf8 s = s) := by
  refine ⟨?_, fun h => by simp [utf8_to_cesu8, h], fun h => by simp [cesu8_to_utf8, h]⟩
  by_cases hc : utf8_smp_count s = 0
  · have hlen : u8j_cesu8_len s = 0 := by simp [u8j_cesu8_len, hc]
    have hcc : cesu8_smp_count s = 0 := noHighSurrogate_count0 hsurr
    simp [utf8_to_cesu8, hlen, cesu8_to_utf8, u8j_utf8_len, hcc]
  · have hlen : u8j_cesu8_len s = s.length + 2 * utf8_smp_count s := by
      simp [u8j_cesu8_len, hc]
    have henc : utf8_to_cesu8 s = cesu8_of_utf8 s := by
      simp only [utf8_to_cesu8, hlen]
      rw [if_neg (by omega)]
      exact u8j_write_cesu8_eq s.length s le_rfl
    rw [henc]
    have hrt : u8j_write_utf8 (cesu8_of_utf8 s) = s :=
      write_utf8_cesu8_of_utf8 s.length s le_rfl hbytes hsurr
    by_cases hdc : u8j_utf8_len (cesu8_of_utf8 s) = 0
    · have h0 : cesu8_smp_count (cesu8_of_utf8 s) = 0 := utf8_len_zero_count hdc
      have hfix : cesu8_of_utf8 s = s := (u8j_write_utf8_id h0).symm.trans hrt
      rw [hfix] at hdc ⊢
      simp [cesu8_to_utf8, hdc]
    · simp only [cesu8_to_utf8, if_neg hdc]
      exact hrt

/-- Witness for C3 at the concrete UTF-8 string "a\u{1F600}". -/
theorem claim_C3_witness :
    bytesLt256 [0x61, 0xf0, 0x9f, 0x98, 0x80] = true ∧
    noHighSurrogate [0x61, 0xf0, 0x9f, 0x98, 0x80] = true ∧
    cesu8_to_utf8 (utf8_to_cesu8 [0x61, 0xf0, 0x9f, 0x98, 0x80]) =
      [0x61, 0xf0, 0x9f, 0x98, 0x80] :=
  ⟨by decide, by decide,
    (claim_C3_transcode_roundtrip [0x61, 0xf0, 0x9f, 0x98, 0x80]
      (by decide) (by decide)).1⟩

/-- C4: with `k` the number of positions at which the supplementary-plane
test fires, `u8j_cesu8_len` returns `strlen + 2k` and `u8j_utf8_len`
returns `strlen - 2k` (an exact integer difference: matches are at least 6
bytes apart, so `2k` never exceeds the length) when `k >= 1`, and both
return 0 (no conversion required) when `k = 0`. -/
theorem claim_C4_length_correct (s c : List Nat) (k j : Nat)
    (hk : utf8_smp_count s = k) (hj : cesu8_smp_count c = j) :
    (1 ≤ k → u8j_cesu8_len s = s.length + 2 * k) ∧
    (k = 0 → u8j_cesu8_len s = 0) ∧
    (1 ≤ j → (u8j_utf8_len c : Int) = (c.length : Int) - 2 * (j : Int)) ∧
    (j = 0 → u8j_utf8_len c = 0) := by
  subst hk hj
  have h6 := cesu8_smp_count_le c.length c le_rfl
  refine ⟨fun h => ?_, fun h => by simp [u8j_cesu8_len, h], fun h => ?_,
    fun h => by simp [u8j_utf8_len, h]⟩
  · rw [u8j_cesu8_len, if_neg (by omega)]
  · rw [u8j_utf8_len, if_neg (by omega)]
    omega

/-- Witness for C4 at "a\u{1F600}" (k = 1) and its CESU-8 form (k = 1). -/
theorem claim_C4_witness :
    u8j_cesu8_len [0x61, 0xf0, 0x9f, 0x98, 0x80] =
      [0x61, 0xf0, 0x9f, 0x98, 0x80].length + 2 * 1 ∧
    (u8j_utf8_len [0xed, 0xa0, 0xbd, 0xed, 0xb8, 0x80] : Int) =
      ([0xed, 0xa0, 0xbd, 0xed, 0xb8, 0x80].length : Int) - 2 * (1 : Int) :=
  ⟨(claim_C4_length_correct [0x61, 0xf0, 0x9f, 0x98, 0x80]
      [0xed, 0xa0, 0xbd, 0xed, 0xb8, 0x80] 1 1 (by decide) (by decide)).1 (by decide),
   (claim_C4_length_correct [0x61, 0xf0, 0x9f, 0x98, 0x80]
      [0xed, 0xa0, 0xbd, 0xed, 0xb8, 0x80] 1 1 (by decide) (by decide)).2.2.1 (by decide)⟩

/-- C5: on inputs with zero supplementary-plane sequences both conversion
entry points return the original pointer unchanged, set `*mem` to NULL,
and perform no allocation (storage is neither the stack buffer nor an
allocation). -/
theorem claim_C5_noop_fast_path (s c : List Nat) (bufsizA bufsizB : Nat)
    (hs : utf8_smp_count s = 0) (hc : cesu8_smp_count c = 0) :
    u8j__as_cesu8 s bufsizA = ⟨s, U8jStorage.original⟩ ∧
    u8j_mem (u8j__as_cesu8 s bufsizA) = none ∧
    u8j__as_utf8 c bufsizB = ⟨c, U8jStorage.original⟩ ∧
    u8j_mem (u8j__as_utf8 c bufsizB) = none := by
  have h1 : u8j_cesu8_len s = 0 := by simp [u8j_cesu8_len, hs]
  have h2 : u8j_utf8_len c = 0 := by simp [u8j_utf8_len, hc]
  refine ⟨?_, ?_, ?_, ?_⟩ <;> simp [u8j__as_cesu8, u8j__as_utf8, u8j_mem, h1, h2]

/-- Witness for C5 at the plain ASCII strings "hi" and "ok". -/
theorem claim_C5_witness :
    u8j__as_cesu8 [0x68, 0x69] 256 = ⟨[0x68, 0x69], U8jStorage.original⟩ ∧
    u8j_mem (u8j__as_utf8 [0x6f, 0x6b] 256) = none :=
  ⟨(claim_C5_noop_fast_path [0x68, 0x69] [0x6f, 0x6b] 256 256
      (by decide) (by decide)).1,
   (claim_C5_noop_fast_path [0x68, 0x69] [0x6f, 0x6b] 256 256
      (by decide) (by decide)).2.2.2⟩

lemma lutf8_smp_count_small (v : List Nat) (n : Nat) (h : n < 4) :
    lutf8_smp_count v n = 0 := by
  interval_cases n <;> rfl

/-- The supplementary test reads the 4 bytes at its offset. -/
lemma u8j__is_utf8_smp_congr {v w : List Nat}
    (h : ∀ i, i < 4 → v.getD i 0 = w.getD i 0) :
    u8j__is_utf8_smp v = u8j__is_utf8_smp w := by
  rw [u8j__is_utf8_smp, u8j__is_utf8_smp,
    h 0 (by omega), h 1 (by omega), h 2 (by omega), h 3 (by omega)]

/-- The length-bounded scan only looks at the first `n` declared bytes. -/
lemma lutf8_smp_count_frame : ∀ (fuel n : Nat), n ≤ fuel → ∀ (v w : List Nat),
    (∀ i, i < n → v.getD i 0 = w.getD i 0) →
    lutf8_smp_count v n = lutf8_smp_count w n := by
  intro fuel
  induction fuel with
  | zero =>
    intro n hn v w _
    have : n = 0 := by omega
    subst this
    rfl
  | succ fuel ih =>
    intro n hn v w hagree
    by_cases h4 : n < 4
    · rw [lutf8_smp_count_small v n h4, lutf8_smp_count_small w n h4]
    · obtain ⟨m, rfl⟩ : ∃ m, n = m + 4 := ⟨n - 4, by omega⟩
      show (if u8j__is_utf8_smp v then 1 else 0) + lutf8_smp_count (v.drop 1) (m + 3) = _
      rw [u8j__is_utf8_smp_congr (fun i hi => hagree i (by omega))]
      rw [ih (m + 3) (by omega) (v.drop 1) (w.drop 1) (fun i hi => by
        rw [getD_drop, getD_drop]
        exact hagree (1 + i) (by omega))]
      rfl

/-- C9: the length-bounded scan `u8j_lcesu8_len v n` depends only on the
declared bytes `v[0..n-1]` (so a truncated special sequence at the end of
the buffer never causes a read past the declared length), and returns 0
without consulting the buffer at all when `n < 4`. -/
theorem claim_C9_bounded_scan (v w : List Nat) (n : Nat)
    (hagree : ∀ i, i < n → v.getD i 0 = w.getD i 0) :
    u8j_lcesu8_len v n = u8j_lcesu8_len w n ∧
    (n < 4 → u8j_lcesu8_len v n = 0) := by
  constructor
  · rw [u8j_lcesu8_len, u8j_lcesu8_len, lutf8_smp_count_frame n n le_rfl v w hagree]
  · intro h
    simp [u8j_lcesu8_len, h]

/-- Witness for C9: a buffer ending in a truncated supplementary sequence
agrees with a longer buffer on the declared 3 bytes, and the scan cannot
tell them apart (both report no conversion). -/
theorem claim_C9_witness :
    u8j_lcesu8_len [0xf0, 0x9f, 0x98] 3 = u8j_lcesu8_len [0xf0, 0x9f, 0x98, 0x80, 0x77] 3 ∧
    u8j_lcesu8_len [0xf0, 0x9f, 0x98] 3 = 0 :=
  ⟨(claim_C9_bounded_scan [0xf0, 0x9f, 0x98] [0xf0, 0x9f, 0x98, 0x80, 0x77] 3
      (by decide)).1,
   (claim_C9_bounded_scan [0xf0, 0x9f, 0x98] [0xf0, 0x9f, 0x98, 0x80, 0x77] 3
      (by decide)).2 (by decide)⟩

/-! ## Binary64 doubles, exactly

`makenode` and `pushnode` (player/javascript.c) move numbers between the
engine (IEEE-754 binary64) and `mpv_node` (int64 or double).  A finite
double is modelled by the exact rational value it denotes; the two C
conversions the bridge performs are modelled exactly:

* int64 -> double (`js_pushnumber(J, node->u.int64)` and the `(double)v`
  of `is_int`) rounds to the nearest representable binary64, ties to even;
  on integers that is rounding to the nearest multiple of `2^(bits-53)`.
* double -> int64 (`int64_t v = d` and `dst->u.int64 = val`) truncates
  toward zero; when the truncated value does not fit in int64 (undefined
  behavior in C) the model takes INT64_MIN, which is what the common x86
  conversion instruction produces.
-/

def INT64_MIN : Int := -(2 ^ 63)

def INT64_MAX : Int := 2 ^ 63 - 1

/-- Number of low bits dropped when rounding the magnitude `a` to 53
significant bits: the least `k` with `a < 2^(53+k)`.  (Covers every
magnitude below `2^117`, far beyond the int64 inputs it is used on.) -/
def dbl_exp (a : Nat) : Nat := (List.range 64).findIdx (fun k => a < 2 ^ (53 + k))

/-- Round the magnitude `a` to the nearest multiple of `2^(dbl_exp a)`,
ties to the even multiple: the binary64 value nearest to `a`. -/
def dbl_round_nat (a : Nat) : Nat :=
  if a < 2 ^ 53 then a
  else
    let u := 2 ^ dbl_exp a
    let q := a / u
    let r := a % u
    let q2 := if u < 2 * r || (2 * r == u && q % 2 == 1) then q + 1 else q
    q2 * u

/-- The C int64 -> double conversion: the value of the binary64 nearest to
`n` (ties to even). -/
def double_of_int (n : Int) : Int := n.sign * (dbl_round_nat n.natAbs : Int)

/-- An engine number: a finite binary64 carried as its exact rational
value, or one of the non-finite values. -/
inductive EDouble where
  | fin (q : Rat)
  | nan
  | inf
  | neginf
deriving DecidableEq

/-- Truncation toward zero of a rational: the integral part. -/
def qtrunc (q : Rat) : Int := q.num.tdiv (q.den : Int)

/-- The C double -> int64 conversion (`int64_t v = d`): truncate toward
zero; out-of-range and non-finite inputs (undefined behavior in C) give
INT64_MIN as the x86 conversion does. -/
def trunc_int64 : EDouble → Int
  | .fin q =>
    let t := qtrunc q
    if INT64_MIN ≤ t ∧ t ≤ INT64_MAX then t else INT64_MIN
  | _ => INT64_MIN

/-- Model of `is_int` (player/javascript.c): `int64_t v = d; return
d == (double)v;`. -/
def is_int (d : EDouble) : Bool :=
  d == EDouble.fin ((double_of_int (trunc_int64 d) : Int) : Rat)

/-! ## Value Marshaller (player/javascript.c, makenode / pushnode)

Engine values are the closed tagged-variant surface the bridge observes
through `js_is*` (spec design notes).  The mujs string layer is fully
UTF-8 through the mujsutf8.h wrappers verified above, so strings cross
this boundary unchanged and are carried abstractly.  Engine objects hold
their own properties in insertion order with unique keys (an engine
invariant: an object cannot have two own properties of the same name);
`js_setproperty` overwrites an existing key in place, else appends. -/

/-- An engine value as the bridge sees it. -/
inductive EValue where
  | undefined
  | null
  | boolean (b : Bool)
  | num (d : EDouble)
  | str (s : String)
  | arr (xs : List EValue)
  | obj (props : List (String × EValue))
  | callable

/-- A host `mpv_node`: the tagged union of MPV_FORMAT_NONE / FLAG / INT64
/ DOUBLE / STRING / NODE_ARRAY / NODE_MAP. -/
inductive Node where
  | none
  | flag (b : Bool)
  | int64 (v : Int)
  | double (d : EDouble)
  | str (s : String)
  | array (xs : List Node)
  | map (ps : List (String × Node))

/-- Engine `js_setproperty` on an object: overwrite the key in place if
present, else append it. -/
def js_setprop : List (String × EValue) → String → EValue → List (String × EValue)
  | [], k, v => [(k, v)]
  | (k1, v1) :: r, k, v =>
    if k1 = k then (k, v) :: r else (k1, v1) :: js_setprop r k v

/-- The object `pushnode`'s map branch builds: `js_newobject` followed by
one `js_setproperty` per map entry, in map order. -/
def obj_of_entries (l : List (String × EValue)) : List (String × EValue) :=
  l.foldl (fun acc p => js_setprop acc p.1 p.2) []

/-- Engine `js_getproperty` on an object: the value of the named own
property, or undefined. -/
def js_getprop (props : List (String × EValue)) (k : String) : EValue :=
  ((props.find? (fun p => p.1 == k)).map Prod.snd).getD EValue.undefined

mutual

/-- Model of `pushnode`: build the engine value for a node.  none pushes
null; int64 goes through `js_pushnumber`, i.e. the int64 -> double
conversion; arrays push elements in index order; maps create an object
and `js_setproperty` each key in map order. -/
def pushnode : Node → EValue
  | .none => .null
  | .flag b => .boolean b
  | .int64 v => .num (.fin ((double_of_int v : Int) : Rat))
  | .double d => .num d
  | .str s => .str s
  | .array xs => .arr (pushnodeList xs)
  | .map ps => .obj (obj_of_entries (pushnodeEntries ps))

def pushnodeList : List Node → List EValue
  | [] => []
  | x :: xs => pushnode x :: pushnodeList xs

def pushnodeEntries : List (String × Node) → List (String × EValue)
  | [] => []
  | (k, x) :: ps => (k, pushnode x) :: pushnodeEntries ps

end

mutual

/-- Model of `makenode`: undefined/null map to none; a number becomes
int64 when `is_int` holds, else double; arrays recurse per index
0..length-1; for objects, `get_object_properties` collects the keys in
iteration (= insertion) order and each value is fetched with
`js_getproperty` by key — on an engine object, whose keys are unique,
that is the positionally corresponding value (`makenodeEntries_lookup`
below); any other kind (callable) becomes none, never an error. -/
def makenode : EValue → Node
  | .undefined => .none
  | .null => .none
  | .boolean b => .flag b
  | .num d => if is_int d then .int64 (trunc_int64 d) else .double d
  | .str s => .str s
  | .arr xs => .array (makenodeList xs)
  | .obj props => .map (makenodeEntries props)
  | .callable => .none

def makenodeList : List EValue → List Node
  | [] => []
  | x :: xs => makenode x :: makenodeList xs

def makenodeEntries : List (String × EValue) → List (String × Node)
  | [] => []
  | (k, v) :: ps => (k, makenode v) :: makenodeEntries ps

end

/-- On unique keys, fetching each collected key with `js_getproperty`
yields exactly the positional entry values: `makenodeEntries` is the
keys-then-lookup walk the C code performs. -/
lemma makenodeEntries_lookup : ∀ (props : List (String × EValue)),
    (props.map Prod.fst).Nodup →
    makenodeEntries props =
      (props.map Prod.fst).map (fun k => (k, makenode (js_getprop props k))) := by
  intro props
  induction props with
  | nil => intro _; rfl
  | cons p ps ih =>
    intro h
    obtain ⟨k, v⟩ := p
    simp only [List.map_cons, List.nodup_cons, List.mem_map] at h
    rw [makenodeEntries]
    simp only [List.map_cons]
    congr 1
    · simp [js_getprop]
    · rw [ih h.2]
      apply List.map_congr_left
      intro a ha
      have hka : (k == a) = false := by
        rw [beq_eq_false_iff_ne]
        intro he
        subst he
        obtain ⟨x, hx, hxa⟩ := List.mem_map.mp ha
        exact h.1 ⟨x, hx, hxa⟩
      simp [js_getprop, List.find?_cons, hka]

/-! ### Round-trip through the engine -/

mutual

/-- The trees for which the engine round trip is lossless: every int64
value survives the int64 -> double -> int64 passage (it is within int64
range and exactly representable as a double), every double value is not an
exact integer (else `makenode` normalizes it to int64), and map keys are
unique (the data-model invariant; a duplicate key would be overwritten by
`js_setproperty`). -/
def goodNode : Node → Bool
  | .none => true
  | .flag _ => true
  | .int64 v => decide (INT64_MIN ≤ v ∧ v ≤ INT64_MAX) && decide (double_of_int v = v)
  | .double d => !is_int d
  | .str _ => true
  | .array xs => goodNodeList xs
  | .map ps => decide ((ps.map Prod.fst).Nodup) && goodNodeEntries ps

def goodNodeList : List Node → Bool
  | [] => true
  | x :: xs => goodNode x && goodNodeList xs

def goodNodeEntries : List (String × Node) → Bool
  | [] => true
  | (_, x) :: ps => goodNode x && goodNodeEntries ps

end

lemma goodNodeList_mem {xs : List Node} (h : goodNodeList xs = true) :
    ∀ x ∈ xs, goodNode x = true := by
  induction xs with
  | nil => intro x hx; cases hx
  | cons y ys ih =>
    rw [goodNodeList, Bool.and_eq_true] at h
    intro x hx
    rcases List.mem_cons.mp hx with rfl | hx
    · exact h.1
    · exact ih h.2 x hx

lemma goodNodeEntries_mem {ps : List (String × Node)} (h : goodNodeEntries ps = true) :
    ∀ p ∈ ps, goodNode p.2 = true := by
  induction ps with
  | nil => intro p hp; cases hp
  | cons q qs ih =>
    obtain ⟨k, x⟩ := q
    rw [goodNodeEntries, Bool.and_eq_true] at h
    intro p hp
    rcases List.mem_cons.mp hp with rfl | hp
    · exact h.1
    · exact ih h.2 p hp

lemma pushnodeEntries_keys (ps : List (String × Node)) :
    (pushnodeEntries ps).map Prod.fst = ps.map Prod.fst := by
  induction ps with
  | nil => rfl
  | cons p ps ih =>
    obtain ⟨k, x⟩ := p
    simp [pushnodeEntries, ih]

/-- `js_setproperty` of a fresh key appends it. -/
lemma js_setprop_append {acc : List (String × EValue)} {k : String} {v : EValue}
    (h : k ∉ acc.map Prod.fst) : js_setprop acc k v = acc ++ [(k, v)] := by
  induction acc with
  | nil => rfl
  | cons p ps ih =>
    obtain ⟨k1, v1⟩ := p
    simp only [List.map_cons, List.mem_cons] at h
    rw [js_setprop, if_neg (fun he => h (Or.inl he.symm))]
    simp [ih (fun hm => h (Or.inr hm))]

/-- Building an object by `js_setproperty` from entries with unique keys
(disjoint from those already present) appends them all in order. -/
lemma foldl_setprop (l : List (String × EValue)) :
    ∀ acc, (l.map Prod.fst).Nodup →
    (∀ k ∈ l.map Prod.fst, k ∉ acc.map Prod.fst) →
    l.foldl (fun a p => js_setprop a p.1 p.2) acc = acc ++ l := by
  induction l with
  | nil => intro acc _ _; simp
  | cons p ps ih =>
    intro acc hn hd
    obtain ⟨k, v⟩ := p
    simp only [List.map_cons, List.nodup_cons] at hn
    rw [List.foldl_cons]
    rw [show js_setprop acc (k, v).1 (k, v).2 = acc ++ [(k, v)] from
      js_setprop_append (hd k (by simp))]
    rw [ih (acc ++ [(k, v)]) hn.2 (fun a ha => by
      simp only [List.map_append, List.mem_append, List.map_cons, List.map_nil,
        List.mem_singleton]
      rintro (hin | rfl)
      · exact hd a (by simp [ha]) hin
      · exact hn.1 ha)]
    simp

/-- On unique keys the object `pushnode` builds carries exactly the map's
entries in order. -/
lemma obj_of_entries_eq {l : List (String × EValue)} (h : (l.map Prod.fst).Nodup) :
    obj_of_entries l = l := by
  rw [obj_of_entries, foldl_setprop l [] h (by simp)]
  rfl

lemma qtrunc_intCast (n : Int) : qtrunc ((n : Int) : Rat) = n := by
  rw [qtrunc, Rat.num_intCast, Rat.den_intCast]
  exact Int.tdiv_one n

lemma makenodeList_push {xs : List Node}
    (H : ∀ x ∈ xs, makenode (pushnode x) = x) :
    makenodeList (pushnodeList xs) = xs := by
  induction xs with
  | nil => rfl
  | cons y ys ih =>
    rw [pushnodeList, makenodeList, H y (by simp), ih (fun x hx => H x (by simp [hx]))]

lemma makenodeEntries_push {ps : List (String × Node)}
    (H : ∀ p ∈ ps, makenode (pushnode p.2) = p.2) :
    makenodeEntries (pushnodeEntries ps) = ps := by
  induction ps with
  | nil => rfl
  | cons q qs ih =>
    obtain ⟨k, x⟩ := q
    rw [pushnodeEntries, makenodeEntries, H ⟨k, x⟩ (by simp),
      ih (fun p hp => H p (by simp [hp]))]

lemma roundtrip_aux : ∀ (n : Nat) (v : Node), sizeOf v ≤ n → goodNode v = true →
    makenode (pushnode v) = v := by
  intro n
  induction n with
  | zero =>
    intro v hv _
    exact absurd hv (by cases v <;> simp)
  | succ n ih =>
    intro v hv hg
    cases v with
    | none => rfl
    | flag b => rfl
    | str s => rfl
    | int64 v =>
      rw [goodNode, Bool.and_eq_true, decide_eq_true_eq, decide_eq_true_eq] at hg
      rw [pushnode, makenode]
      rw [if_pos (show is_int (EDouble.fin ((double_of_int v : Int) : Rat)) = true by
        rw [hg.2, is_int, trunc_int64]
        simp only [qtrunc_intCast]
        rw [if_pos hg.1, hg.2]
        exact beq_self_eq_true _)]
      rw [hg.2, trunc_int64]
      simp only [qtrunc_intCast]
      rw [if_pos hg.1]
    | double d =>
      rw [goodNode, Bool.not_eq_true'] at hg
      rw [pushnode, makenode, if_neg (by rw [hg]; exact Bool.false_ne_true)]
    | array xs =>
      rw [goodNode] at hg
      rw [pushnode, makenode, makenodeList_push (fun x hx => by
        have hsz : sizeOf x < sizeOf (Node.array xs) := by
          have := List.sizeOf_lt_of_mem hx
          simp only [Node.array.sizeOf_spec]
          omega
        exact ih x (by omega) (goodNodeList_mem hg x hx))]
    | map ps =>
      rw [goodNode, Bool.and_eq_true, decide_eq_true_eq] at hg
      rw [pushnode, makenode]
      rw [obj_of_entries_eq (by rw [pushnodeEntries_keys]; exact hg.1)]
      rw [makenodeEntries_push (fun p hp => by
        have hsz : sizeOf p.2 < sizeOf (Node.map ps) := by
          have h1 := List.sizeOf_lt_of_mem hp
          obtain ⟨k, x⟩ := p
          simp only [Node.map.sizeOf_spec, Prod.mk.sizeOf_spec] at h1 ⊢
          omega
        exact ih p.2 (by omega) (goodNodeEntries_mem hg.2 p hp))]

/-- C1 (counterexample to the claim as stated): the int64 value `2^53 + 1`
is not representable as a double, so `pushnode` (via `js_pushnumber`)
rounds it to `2^53` and the round trip returns a different scalar — the
claimed structural equality fails on this tree. -/
theorem claim_C1_counterexample :
    makenode (pushnode (Node.int64 9007199254740993)) = Node.int64 9007199254740992 ∧
    (9007199254740992 : Int) ≠ 9007199254740993 :=
  ⟨by rfl, by decide⟩

/-- C1 (amended): for every Node tree built from the kinds none, flag,
int64, double, string, array and map in which every int64 value is within
int64 range and exactly representable as a double, every double value is
not an exact integer (`is_int` false — an exact-integer double comes back
as int64, as the claim's final clause says), and every map has unique keys
(the data-model invariant), pushing it with `pushnode` and converting back
with `makenode` yields a structurally equal Node: same format tags, same
scalar values, same array element order, same map key order. -/
theorem claim_C1_roundtrip (v : Node) (h : goodNode v = true) :
    makenode (pushnode v) = v :=
  roundtrip_aux (sizeOf v) v le_rfl h

/-- Witness for C1 at Scenario C's tree
`map [a: int64 1, b: array [flag true, str "x"]]`. -/
theorem claim_C1_witness :
    goodNode (Node.map [("a", Node.int64 1),
      ("b", Node.array [Node.flag true, Node.str "x"])]) = true ∧
    makenode (pushnode (Node.map [("a", Node.int64 1),
      ("b", Node.array [Node.flag true, Node.str "x"])])) =
      Node.map [("a", Node.int64 1), ("b", Node.array [Node.flag true, Node.str "x"])] :=
  ⟨by rfl,
   claim_C1_roundtrip (Node.map [("a", Node.int64 1),
     ("b", Node.array [Node.flag true, Node.str "x"])]) (by rfl)⟩

/-- C6: `makenode` on an engine number `d` produces an int64 node holding
the truncation of `d` exactly when `d` survives the double -> int64 ->
double passage (`v == (double)(int64)v`, the `is_int` test), and otherwise
a double node carrying `d` unchanged. -/
theorem claim_C6_number_to_node (d : EDouble) :
    (makenode (EValue.num d) = Node.int64 (trunc_int64 d) ∧
      d = EDouble.fin ((double_of_int (trunc_int64 d) : Int) : Rat)) ∨
    (makenode (EValue.num d) = Node.double d ∧
      ¬ d = EDouble.fin ((double_of_int (trunc_int64 d) : Int) : Rat)) := by
  by_cases h : is_int d = true
  · left
    refine ⟨by rw [makenode, if_pos h], ?_⟩
    rw [is_int] at h
    exact beq_iff_eq.mp h
  · right
    have h' : is_int d = false := by simpa using h
    refine ⟨by rw [makenode, if_neg (by rw [h']; exact Bool.false_ne_true)], ?_⟩
    rw [is_int, beq_eq_false_iff_ne] at h'
    exact h'

/-- C7: an engine value of any kind other than undefined, null, boolean,
number, string, array or plain object — in the bridge's closed surface, a
callable — is marshalled to the none format.  (`makenode` is a total
function of the engine value: the fallthrough branch sets none and never
raises.) -/
theorem claim_C7_unknown_kind : makenode EValue.callable = Node.none := rfl

/-! ## Call Bridge (player/javascript.c, status / last-error convention)

The host calls (`mpv_command*`, `mpv_get_property`, ...) are external
collaborators: each wrapper below takes the host's status (and result
value, when there is one) as parameters and models what the bridge does
with them.  A wrapper's observable outcome is the value it pushes as the
call's result together with its write, if any, to the per-script field
`mp.last_error_string`. -/

/-- Modelled from the spec: `mpv_error_string` (libmpv client API, not
under player/) returns the literal "success" for a non-negative status
and the host's human-readable error text for a negative one; the
negative-status texts are the host's table, taken as a parameter. -/
def mpv_error_string (errtext : Int → String) (err : Int) : String :=
  if 0 ≤ err then "success" else errtext err

/-- The observable outcome of a bridge call: the pushed result and the
write (if any) to `mp.last_error_string`. -/
structure BridgeOut where
  result : EValue
  lastError : Option String

/-- Model of `set_last_error` as the wrappers call it (with `str = NULL`):
the text stored into `mp.last_error_string` is `mpv_error_string(err)`. -/
def set_last_error (errtext : Int → String) (err : Int) : String :=
  mpv_error_string errtext err

/-- Model of `handledAsError`: for `err < 0`, set `mp.last_error_string`
and push undefined (returns the handled outcome); for `err >= 0` do
nothing (returns none). -/
def handledAsError (errtext : Int → String) (err : Int) : Option (EValue × String) :=
  if 0 ≤ err then Option.none
  else some (EValue.undefined, set_last_error errtext err)

/-- Model of `pushStatus`: push true on success, else the
`handledAsError` outcome. -/
def pushStatus (errtext : Int → String) (err : Int) : BridgeOut :=
  match handledAsError errtext err with
  | Option.none => ⟨EValue.boolean true, Option.none⟩
  | some (v, e) => ⟨v, some e⟩

/-- Model of `js_isundefined`. -/
def js_isundefined : EValue → Bool
  | .undefined => true
  | _ => false

/-- Model of `handledAsErrDef`, with `stack2` the value at stack index 2
(the optional default): identical to `handledAsError` when that slot is
undefined; otherwise it always sets `mp.last_error_string` and, on error,
pushes the index-2 default as the result.  Returns (last-error write,
pushed result if the call was handled). -/
def handledAsErrDef (errtext : Int → String) (stack2 : EValue) (err : Int) :
    Option String × Option EValue :=
  if js_isundefined stack2 then
    match handledAsError errtext err with
    | Option.none => (Option.none, Option.none)
    | some (v, e) => (some e, some v)
  else
    let le := set_last_error errtext err
    if 0 ≤ err then (some le, Option.none)
    else (some le, some stack2)

/-- The shape of the default-accepting property getters
(`script_get_property`, `script_get_property_number`, `_bool`, `_native`,
`_osd`): if `handledAsErrDef` handled the status, its pushed value is the
result; otherwise the real host result is pushed.  (`script_command_native`
shares the `handledAsErrDef` dispatch but its result push is broken in the
source; see `script_command_native` below.) -/
def defaultGetter (errtext : Int → String) (stack2 : EValue) (hostStatus : Int)
    (hostResult : EValue) : BridgeOut :=
  match handledAsErrDef errtext stack2 hostStatus with
  | (le, some v) => ⟨v, le⟩
  | (le, Option.none) => ⟨hostResult, le⟩

/-- Model of `script_get_property_number`: a default-accepting wrapper
whose host result is the number read into `MPV_FORMAT_DOUBLE`. -/
def script_get_property_number (errtext : Int → String) (stack2 : EValue)
    (hostStatus : Int) (result : EDouble) : BridgeOut :=
  defaultGetter errtext stack2 hostStatus (EValue.num result)

/-- What `script_command_native` leaves behind.  When `handledAsErrDef`
handled the status, a normal outcome was pushed before the broken call is
reached.  When it did not (non-negative status), the code reaches
`pushnode(tmp, &result)` — which passes the talloc context `tmp` where
`pushnode` expects the `js_State *J` (compare `script_get_property_native`,
which passes `J`); `tmp` is a `void *`, so the call compiles, but the
pushes operate on a non-engine pointer: the result node is never pushed
onto the engine stack and the behavior is undefined. -/
inductive CmdNativeOut where
  | ret (out : BridgeOut)
  | corrupt (lastError : Option String)

/-- Model of `script_command_native` as written: `handledAsErrDef` over
the `mpv_command_node` status; on the unhandled (success) path the result
push is the broken `pushnode(tmp, &result)` call, so the real result is
never returned — only `mp.last_error_string` (already set to "success"
when a default was supplied) survives. -/
def script_command_native (errtext : Int → String) (stack2 : EValue)
    (hostStatus : Int) : CmdNativeOut :=
  match handledAsErrDef errtext stack2 hostStatus with
  | (le, some v) => CmdNativeOut.ret ⟨v, le⟩
  | (le, Option.none) => CmdNativeOut.corrupt le

/-- Model of `script_command` (`pushStatus` over `mpv_command_string`). -/
def script_command (errtext : Int → String) (hostStatus : Int) : BridgeOut :=
  pushStatus errtext hostStatus

/-- Model of `script_set_property` (`pushStatus` over
`mpv_set_property_string`). -/
def script_set_property (errtext : Int → String) (hostStatus : Int) : BridgeOut :=
  pushStatus errtext hostStatus

/-- Model of `script_set_property_bool` (`pushStatus` over
`mpv_set_property` with MPV_FORMAT_FLAG). -/
def script_set_property_bool (errtext : Int → String) (hostStatus : Int) : BridgeOut :=
  pushStatus errtext hostStatus

/-- Model of `script__observe_property` (`pushStatus` over
`mpv_observe_property`). -/
def script__observe_property (errtext : Int → String) (hostStatus : Int) : BridgeOut :=
  pushStatus errtext hostStatus

/-- A default-accepting property getter whose index-2 default is a
defined value returns exactly that default and records the host's error
text when the host status is negative, and records "success" and returns
the real result (not the default) when the status is non-negative.  (This
is the convention C2 claims; `script_command_native`, which the claim
also names, violates its success half — see
`claim_C2_command_native_bug`.) -/
theorem defaultGetter_convention (errtext : Int → String) (stack2 : EValue)
    (hostStatus : Int) (hostResult : EValue)
    (hdef : js_isundefined stack2 = false) :
    (hostStatus < 0 →
      defaultGetter errtext stack2 hostStatus hostResult =
        ⟨stack2, some (errtext hostStatus)⟩) ∧
    (0 ≤ hostStatus →
      defaultGetter errtext stack2 hostStatus hostResult =
        ⟨hostResult, some "success"⟩) := by
  constructor
  · intro h
    rw [defaultGetter, handledAsErrDef,
      if_neg (by rw [hdef]; exact Bool.false_ne_true)]
    simp only [set_last_error, mpv_error_string, if_neg (by omega : ¬ 0 ≤ hostStatus)]
  · intro h
    rw [defaultGetter, handledAsErrDef,
      if_neg (by rw [hdef]; exact Bool.false_ne_true)]
    simp only [set_last_error, mpv_error_string, if_pos h]

/-- Scenario B, on a property getter: reading a property with default 42
while the host call fails with status -10 returns 42 with the failure
text; the same call succeeding records "success" and returns the real
value 7. -/
theorem script_get_property_number_cases :
    js_isundefined (EValue.num (EDouble.fin 42)) = false ∧
    script_get_property_number (fun _ => "property unavailable")
      (EValue.num (EDouble.fin 42)) (-10) (EDouble.fin 7) =
      ⟨EValue.num (EDouble.fin 42), some "property unavailable"⟩ ∧
    script_get_property_number (fun _ => "property unavailable")
      (EValue.num (EDouble.fin 42)) 0 (EDouble.fin 7) =
      ⟨EValue.num (EDouble.fin 7), some "success"⟩ :=
  ⟨rfl,
   (defaultGetter_convention (fun _ => "property unavailable")
     (EValue.num (EDouble.fin 42)) (-10) (EValue.num (EDouble.fin 7)) rfl).1
     (by decide),
   (defaultGetter_convention (fun _ => "property unavailable")
     (EValue.num (EDouble.fin 42)) 0 (EValue.num (EDouble.fin 7)) rfl).2
     (by decide)⟩

/-- C2 (code bug, evaluated at the failing input): `script_command_native`
with the defined default 42 at stack index 2 and a succeeding host call
(status 0) sets `mp.last_error_string` to "success" but then reaches the
broken `pushnode(tmp, &result)` call (javascript.c:749, the talloc context
passed where the `js_State` belongs), so the real result is never
returned — where the claim, with the spec, says the real result (not the
default) is returned.  The failure path still returns the default with
the host's error text, as claimed. -/
theorem claim_C2_command_native_bug :
    script_command_native (fun _ => "property unavailable")
      (EValue.num (EDouble.fin 42)) 0 =
      CmdNativeOut.corrupt (some "success") ∧
    script_command_native (fun _ => "property unavailable")
      (EValue.num (EDouble.fin 42)) (-10) =
      CmdNativeOut.ret ⟨EValue.num (EDouble.fin 42), some "property unavailable"⟩ :=
  ⟨rfl, rfl⟩

/-- C8: every `pushStatus`-based bridge call returns boolean true on a
non-negative host status (leaving the last-error field untouched), and on
a negative status writes the host's error text for that status to
`mp.last_error_string` and returns undefined; `script_command`,
`script_set_property`, `script_set_property_bool` and
`script__observe_property` are exactly this convention applied to their
host call's status. -/
theorem claim_C8_status_convention (errtext : Int → String) (hostStatus : Int) :
    (0 ≤ hostStatus →
      pushStatus errtext hostStatus = ⟨EValue.boolean true, Option.none⟩) ∧
    (hostStatus < 0 →
      pushStatus errtext hostStatus = ⟨EValue.undefined, some (errtext hostStatus)⟩) ∧
    script_command errtext hostStatus = pushStatus errtext hostStatus ∧
    script_set_property errtext hostStatus = pushStatus errtext hostStatus ∧
    script_set_property_bool errtext hostStatus = pushStatus errtext hostStatus ∧
    script__observe_property errtext hostStatus = pushStatus errtext hostStatus := by
  refine ⟨?_, ?_, rfl, rfl, rfl, rfl⟩
  · intro h
    rw [pushStatus, handledAsError, if_pos h]
  · intro h
    rw [pushStatus, handledAsError, if_neg (by omega)]
    rw [set_last_error, mpv_error_string, if_neg (by omega)]

/-- Witness for C8 (Scenario A): setting a boolean property the host
rejects with status -5 returns undefined with the host's error string; a
successful set returns boolean true. -/
theorem claim_C8_witness :
    script_set_property_bool (fun _ => "property not found") (-5) =
      ⟨EValue.undefined, some "property not found"⟩ ∧
    script_set_property_bool (fun _ => "property not found") 0 =
      ⟨EValue.boolean true, Option.none⟩ :=
  ⟨(claim_C8_status_convention (fun _ => "property not found") (-5)).2.1 (by decide),
   (claim_C8_status_convention (fun _ => "property not found") 0).1 (by decide)⟩

/-! ## script_commandv argument vector -/

def MAX_LENGTH_COMMANDV : Nat := 50

/-- Model of `script_commandv`: `length = js_gettop(J)` is the call-stack
height (the `this` slot plus the positional arguments); heights 0 and
above 50 raise the script error, otherwise `args[0..length-2]` receive the
stringified arguments at stack indices 1..length-1 and `args[length-1]`
the NULL terminator, inside `const char *args[51]`; the vector is then
passed to `mpv_command`.  Engine string conversion (`js_tostring`) is the
parameter `tostr`. -/
def script_commandv (tostr : EValue → String) (stack : List EValue) :
    Except String (List (Option String)) :=
  let length := stack.length
  if length = 0 ∨ MAX_LENGTH_COMMANDV < length then
    Except.error "Invalid number of arguments. Allowed: 1 - 50"
  else
    Except.ok (((List.range (length - 1)).map
      (fun i => some (tostr (stack.getD (i + 1) EValue.undefined)))) ++ [Option.none])

/-- C10: `script_commandv` raises the "Invalid number of arguments"
script error exactly when the call-stack height is 0 or above 50; for any
other height h it passes to the host a vector of h-1 (at most 49)
argument strings followed by the NULL terminator — h entries in all, so
every write lands inside the fixed 51-slot array. -/
theorem claim_C10_commandv (tostr : EValue → String) (stack : List EValue) :
    ((stack.length = 0 ∨ MAX_LENGTH_COMMANDV < stack.length) ↔
      ∃ e, script_commandv tostr stack = Except.error e) ∧
    (∀ vec, script_commandv tostr stack = Except.ok vec →
      vec = ((List.range (stack.length - 1)).map
        (fun i => some (tostr (stack.getD (i + 1) EValue.undefined)))) ++ [Option.none] ∧
      vec.length = stack.length ∧
      vec.length ≤ MAX_LENGTH_COMMANDV + 1 ∧
      vec.getLast? = some Option.none) := by
  by_cases h : stack.length = 0 ∨ MAX_LENGTH_COMMANDV < stack.length
  · constructor
    · exact ⟨fun _ => ⟨_, by rw [script_commandv, if_pos h]⟩, fun _ => h⟩
    · intro vec hvec
      rw [script_commandv, if_pos h] at hvec
      cases hvec
  · constructor
    · constructor
      · intro h2
        exact absurd h2 h
      · rintro ⟨e, he⟩
        rw [script_commandv, if_neg h] at he
        cases he
    · intro vec hvec
      rw [script_commandv, if_neg h] at hvec
      obtain rfl := Except.ok.inj hvec.symm
      push_neg at h
      refine ⟨rfl, ?_, ?_, ?_⟩
      · simp only [List.length_append, List.length_map, List.length_range,
          List.length_cons, List.length_nil]
        omega
      · simp only [List.length_append, List.length_map, List.length_range,
          List.length_cons, List.length_nil, MAX_LENGTH_COMMANDV] at h ⊢
        omega
      · exact List.getLast?_concat _

/-- Witness for C10: the empty stack (height 0) raises, and a height-2
stack yields the one argument string plus the terminator. -/
theorem claim_C10_witness :
    (∃ e, script_commandv (fun _ => "arg") [] = Except.error e) ∧
    (∀ vec, script_commandv (fun _ => "arg") [EValue.undefined, EValue.str "stop"] =
        Except.ok vec → vec.length = 2 ∧ vec.getLast? = some Option.none) :=
  ⟨(claim_C10_commandv (fun _ => "arg") []).1.mp (Or.inl rfl),
   fun vec hvec =>
     ⟨((claim_C10_commandv (fun _ => "arg")
         [EValue.undefined, EValue.str "stop"]).2 vec hvec).2.1,
      ((claim_C10_commandv (fun _ => "arg")
         [EValue.undefined, EValue.str "stop"]).2 vec hvec).2.2.2⟩⟩

end MpvJs
